import Mathlib

/-!
Verification development for the pyMIND signal-windowing and spectrogram
engine (`backend/services/eeg_service.py`, `backend/services/vitals_service.py`).

Sample times and values are floats in the source; they are modelled as
rationals (`ℚ`) so that windowing arithmetic is exact and decidable, except
for the dB power conversion, which needs the real logarithm and is modelled
over `ℝ`.  Numpy boolean-mask indexing is modelled by `applyMask`.  File
reading and the scipy spectrogram call are external to this repository; the
batch pipeline is parameterised by their outcomes (`Except` for fallible
calls), mirroring the Python `try`/`except` structure.
-/

set_option autoImplicit false

namespace PyMIND

/-- Numpy boolean-mask indexing `xs[mask]`: keep the entries of `xs` whose
corresponding mask entry is `true`. -/
def applyMask {α : Type} : List Bool → List α → List α
  | true :: bs, x :: xs => x :: applyMask bs xs
  | false :: bs, _ :: xs => applyMask bs xs
  | _, _ => []

theorem applyMask_map_eq_filter {α : Type} (p : α → Bool) (l : List α) :
    applyMask (l.map p) l = l.filter p := by
  induction l with
  | nil => rfl
  | cons x xs ih =>
      cases hx : p x <;> simp [applyMask, List.filter, hx, ih]

theorem applyMask_ne_nil {α : Type} (p : α → Bool) (l : List α)
    (h : (l.map p).any id = true) : applyMask (l.map p) l ≠ [] := by
  rw [applyMask_map_eq_filter]
  intro hnil
  rcases List.any_eq_true.mp h with ⟨b, hb, hpb⟩
  rcases List.mem_map.mp hb with ⟨a, ha, rfl⟩
  have := List.filter_eq_nil_iff.mp hnil a ha
  simp [id] at hpb
  exact this hpb

theorem mem_applyMask_map {α : Type} (p : α → Bool) (l : List α) (x : α)
    (hx : x ∈ applyMask (l.map p) l) : x ∈ l ∧ p x = true := by
  rw [applyMask_map_eq_filter] at hx
  exact ⟨(List.mem_filter.mp hx).1, (List.mem_filter.mp hx).2⟩

/-- The valid-sample mask `time != 0` of the validity filter. -/
def validMaskOf (time : List ℚ) : List Bool :=
  time.map (fun t => decide (t ≠ 0))

/-- The valid time axis `time[time != 0]`. -/
def timeValidOf (time : List ℚ) : List ℚ :=
  applyMask (validMaskOf time) time

theorem timeValidOf_eq_filter (time : List ℚ) :
    timeValidOf time = time.filter (fun t => decide (t ≠ 0)) :=
  applyMask_map_eq_filter _ _

/-- Window start `max(time_valid[0], time_valid[0] + time_offset)`. -/
def startTimeOf (tv : List ℚ) (time_offset : ℚ) : ℚ :=
  max tv.headI (tv.headI + time_offset)

/-- Window end `min(time_valid[-1], start_time + window_duration)`. -/
def endTimeOf (tv : List ℚ) (start window_duration : ℚ) : ℚ :=
  min (tv.getLastD 0) (start + window_duration)

/-- Window mask `(time_valid >= start) & (time_valid <= end)`. -/
def windowMaskOf (tv : List ℚ) (start endT : ℚ) : List Bool :=
  tv.map (fun t => decide (start ≤ t ∧ t ≤ endT))

/-- One channel entry of a live-data result: rebased times and values. -/
structure ChannelWindow where
  time : List ℚ
  values : List ℚ
deriving DecidableEq

/-- A parsed EEG recording: shared time vector and channel × sample matrix,
as returned by `read_eeg_hdf5`. -/
structure Recording where
  time : List ℚ
  data : List (List ℚ)
deriving DecidableEq

/-- Result shape of `get_eeg_live_data`. -/
structure LiveResult where
  channels : List (String × ChannelWindow)
  time_offset : ℚ
  window_duration : ℚ
deriving DecidableEq

/-- The fixed 10-second live window duration. -/
def liveWindowDuration : ℚ := 10

/-- The `channels` dict built by `get_eeg_live_data` (eeg_service.py, lines
171-197): validity filter, shared window, rebased time axis, and up to the
first 8 channels keyed `Channel_i`. -/
def liveChannels (rec : Recording) (time_offset : ℚ) :
    List (String × ChannelWindow) :=
  let vmask := validMaskOf rec.time
  let tv := applyMask vmask rec.time
  if 1 < tv.length then
    let start := startTimeOf tv time_offset
    let endT := endTimeOf tv start liveWindowDuration
    let wmask := windowMaskOf tv start endT
    if wmask.any id then
      let time_window := (applyMask wmask tv).map (fun t => t - start)
      let num_channels := min rec.data.length 8
      (List.range num_channels).map (fun i =>
        ("Channel_" ++ toString (i + 1),
          { time := time_window,
            values := applyMask wmask (applyMask vmask (rec.data.getD i [])) }))
    else []
  else []

/-- Model of `get_eeg_live_data` (eeg_service.py, lines 164-205) on an
already-read recording.  The function never raises: the Python body catches
every exception (lines 198-199) and this model is total. -/
def get_eeg_live_data (rec : Recording) (time_offset : ℚ) : LiveResult :=
  { channels := liveChannels rec time_offset, time_offset := time_offset,
    window_duration := liveWindowDuration }

/-- Python substring containment `needle in hay` on character lists. -/
def containsSub (hay needle : List Char) : Bool :=
  (List.range (hay.length + 1)).any (fun i => needle.isPrefixOf (hay.drop i))

/-- Python `str.lower()` on one character (the keys matched in the source
are ASCII, where Python lowering is exactly the A-Z shift). -/
def charLower (c : Char) : Char :=
  if 'A' ≤ c ∧ c ≤ 'Z' then Char.ofNat (c.toNat + 32) else c

/-- Case-insensitive substring test `pat in key.lower()`, with `pat` given
already in lower case as in the source. -/
def lowerContains (key pat : String) : Bool :=
  containsSub (key.data.map charLower) pat.data

/-- Case-sensitive substring test `pat in key`, as used for the vitals
numeric series in `generate_vitals_trend_plot`. -/
def rawContains (key pat : String) : Bool :=
  containsSub key.data pat.data

/-- The `ecg_key`/`abp_key`/`pleth_key`/`resp_key` variables of
`get_vitals_live_data`. -/
structure RoleKeys where
  ecg_key : Option String := none
  abp_key : Option String := none
  pleth_key : Option String := none
  resp_key : Option String := none
deriving DecidableEq

/-- One iteration of the waveform key-selection loop of
`get_vitals_live_data` (vitals_service.py, lines 65-74): lowercase the key,
then an if/elif chain assigning the key to the first role whose vocabulary
it contains.  A later key overwrites an earlier assignment of the same
role. -/
def waveKeyStep (acc : RoleKeys) (key : String) : RoleKeys :=
  if lowerContains key "ecg" then { acc with ecg_key := some key }
  else if lowerContains key "abp" || lowerContains key "arterial" ||
      lowerContains key "art" then { acc with abp_key := some key }
  else if lowerContains key "pleth" then { acc with pleth_key := some key }
  else if lowerContains key "resp" || lowerContains key "impedance" then
    { acc with resp_key := some key }
  else acc

/-- The whole waveform key-selection loop of `get_vitals_live_data`. -/
def selectWaveKeys (keys : List String) : RoleKeys :=
  keys.foldl waveKeyStep {}

/-- The `hr_key`/`spo2_key`/`map_key` variables of
`generate_vitals_trend_plot`. -/
structure NumericKeys where
  hr_key : Option String := none
  spo2_key : Option String := none
  map_key : Option String := none
deriving DecidableEq

/-- One iteration of the numeric key-selection loop of
`generate_vitals_trend_plot` (vitals_service.py, lines 169-175): three
independent `if` tests per key, matching case-sensitively against the raw
key. -/
def numericKeyStep (acc : NumericKeys) (key : String) : NumericKeys :=
  let acc := if rawContains key "Heart Rate" || rawContains key "HR" then
    { acc with hr_key := some key } else acc
  let acc := if rawContains key "SpO2" || rawContains key "Oxigen Saturation" ||
      rawContains key "Arterial Oxigen" then { acc with spo2_key := some key } else acc
  if rawContains key "MAP" || rawContains key "MEAN" then
    { acc with map_key := some key } else acc

/-- The whole numeric key-selection loop of `generate_vitals_trend_plot`. -/
def selectNumericKeys (keys : List String) : NumericKeys :=
  keys.foldl numericKeyStep {}

/-- One per-role waveform block of `get_vitals_live_data` (the ECG block,
vitals_service.py lines 77-89; the ABP/Pleth/Resp blocks are identical):
validity filter, window around `time_offset`, rebased times.  Note that the
entry is built whenever at least 2 valid samples exist, even if the window
mask selects no sample at all. -/
def vitalsRoleWindow (waves : List (String × List ℚ × List ℚ))
    (key : Option String) (time_offset : ℚ) : Option (String × ChannelWindow) :=
  match key with
  | none => none
  | some k =>
    match waves.lookup k with
    | none => none
    | some (time_full, vals_full) =>
      let vmask := validMaskOf time_full
      let tv := applyMask vmask time_full
      let vv := applyMask vmask vals_full
      if 1 < tv.length then
        let start := startTimeOf tv time_offset
        let endT := endTimeOf tv start liveWindowDuration
        let wmask := windowMaskOf tv start endT
        some (k, { time := (applyMask wmask tv).map (fun t => t - start),
                   values := applyMask wmask vv })
      else none

/-- Model of `get_vitals_live_data` (vitals_service.py, lines 46-153) on an
already-read waveform collection: role keys are selected by the substring
loop, then each matched role contributes one entry `(role, label, window)`. -/
def get_vitals_live_data (waves : List (String × List ℚ × List ℚ))
    (time_offset : ℚ) : List (String × String × ChannelWindow) :=
  let rk := selectWaveKeys (waves.map Prod.fst)
  (match vitalsRoleWindow waves rk.ecg_key time_offset with
    | some e => [("ecg", e)] | none => []) ++
  (match vitalsRoleWindow waves rk.abp_key time_offset with
    | some e => [("abp", e)] | none => []) ++
  (match vitalsRoleWindow waves rk.pleth_key time_offset with
    | some e => [("pleth", e)] | none => []) ++
  (match vitalsRoleWindow waves rk.resp_key time_offset with
    | some e => [("resp", e)] | none => [])

/-- Python `int()` truncation toward zero on a rational. -/
def pyInt (q : ℚ) : ℤ :=
  if q < 0 then -⌊-q⌋ else ⌊q⌋

/-- Spectrogram segment length `nperseg = min(256, int(fs))`
(eeg_service.py, line 132). -/
def npersegOf (fs : ℚ) : ℤ :=
  min 256 (pyInt fs)

/-- Spectrogram overlap `noverlap = nperseg // 2` (eeg_service.py, line 133). -/
def noverlapOf (fs : ℚ) : ℤ :=
  npersegOf fs / 2

/-- The triple returned by `compute_spectrogram`: frequency axis, segment
time axis, and the per-channel power surface (of abstract type `α`; the
batch pipeline never inspects it). -/
structure SpecData (α : Type) where
  frequencies : List ℚ
  times : List ℚ
  power : α
deriving DecidableEq

/-- The `result` dict built by `get_eeg_spectrograms` (eeg_service.py,
lines 88-96): every key is always present; `error` is `none` unless an
exception was caught at the batch boundary. -/
structure SpecResult (α : Type) where
  spectrograms : List (String × α)
  channel_names : List String
  frequencies : List ℚ
  times : List ℚ
  time_offset : ℚ
  window_duration : ℚ
  sampling_freq : ℚ
  error : Option String
deriving DecidableEq

/-- The initial `result` value of `get_eeg_spectrograms`. -/
def baseSpecResult (α : Type) (time_offset window_duration : ℚ) : SpecResult α :=
  { spectrograms := [], channel_names := [], frequencies := [], times := [],
    time_offset := time_offset, window_duration := window_duration,
    sampling_freq := 250, error := none }

/-- Metadata as produced by `read_eeg_metadata` (defaults already applied
for absent attributes). -/
structure EEGMetadata where
  channel_names : List String
  sampling_freq : ℚ
deriving DecidableEq

/-- Effective channel-name list: default names `Ch_{i+1}` are generated
when the metadata has none (eeg_service.py, lines 110-111). -/
def effChannelNames (md : EEGMetadata) (data : List (List ℚ)) : List String :=
  if md.channel_names.isEmpty then
    (List.range data.length).map (fun i => "Ch_" ++ toString (i + 1))
  else md.channel_names

/-- Windowed data of channel `i`: `data[i, valid_mask][window_mask]`. -/
def windowedChannel (data : List (List ℚ)) (vmask wmask : List Bool)
    (i : ℕ) : List ℚ :=
  applyMask wmask (applyMask vmask (data.getD i []))

/-- Python dict assignment `d[key] = value` on an insertion-ordered
association list: when the key is already present its value is overwritten
in place (the key keeps its original position); otherwise the pair is
appended at the end, preserving insertion order. -/
def dictInsert {α : Type} (l : List (String × α)) (k : String) (v : α) :
    List (String × α) :=
  if l.any (fun p => p.1 == k) then
    l.map (fun p => if p.1 == k then (k, v) else p)
  else l ++ [(k, v)]

/-- The per-channel loop of `get_eeg_spectrograms` (eeg_service.py, lines
136-155), threading the mutable `result`: break when the channel index is
out of range of the data matrix, skip a channel shorter than `nperseg`,
and on a per-channel exception (`Except.error`) return the partially built
result with `error` set — this models the Python exception propagating to
the `except` block, which returns the same mutated `result` object.  The
dict assignment `result['spectrograms'][ch_name] = ...` is modelled by
`dictInsert`, so a duplicate channel name overwrites its earlier entry
exactly as the Python dict does. -/
def specChannelLoop {α : Type} (f : List ℚ → Except String (SpecData α))
    (data : List (List ℚ)) (vmask wmask : List Bool) (np : ℤ) :
    SpecResult α → List (ℕ × String) → SpecResult α
  | res, [] => res
  | res, (ch_idx, ch_name) :: rest =>
    if data.length ≤ ch_idx then res
    else
      let channel_data := windowedChannel data vmask wmask ch_idx
      if (channel_data.length : ℤ) < np then
        specChannelLoop f data vmask wmask np res rest
      else
        match f channel_data with
        | Except.error msg => { res with error := some msg }
        | Except.ok spec =>
          let res1 := { res with
            spectrograms := dictInsert res.spectrograms ch_name spec.power }
          let res2 := if res1.frequencies.isEmpty then
            { res1 with frequencies := spec.frequencies, times := spec.times }
          else res1
          specChannelLoop f data vmask wmask np res2 rest

/-- Model of `get_eeg_spectrograms` (eeg_service.py, lines 83-161).  The
file read (`read_eeg_hdf5`) and the scipy call inside `compute_spectrogram`
are external fallible operations, modelled as `Except`-valued parameters
(`readData`; `compute fs nperseg noverlap channel_data`); an `error`
outcome of either corresponds to an exception caught by the batch-boundary
`except` block. -/
def get_eeg_spectrograms {α : Type}
    (compute : ℚ → ℤ → ℤ → List ℚ → Except String (SpecData α))
    (readData : Except String (List ℚ × List (List ℚ)))
    (md : EEGMetadata) (time_offset window_duration : ℚ) : SpecResult α :=
  let result := baseSpecResult α time_offset window_duration
  match readData with
  | Except.error e => { result with error := some e }
  | Except.ok (time, data) =>
    let fs := md.sampling_freq
    let channel_names := effChannelNames md data
    let result := { result with channel_names := channel_names,
                                sampling_freq := fs }
    let vmask := validMaskOf time
    let tv := applyMask vmask time
    if tv.length < 2 then result
    else
      let start := startTimeOf tv time_offset
      let endT := endTimeOf tv start window_duration
      let wmask := windowMaskOf tv start endT
      if wmask.any id then
        specChannelLoop (compute fs (npersegOf fs) (noverlapOf fs))
          data vmask wmask (npersegOf fs) result channel_names.enum
      else result

/-- Segment hop of the short-time Fourier transform: `nperseg - noverlap`. -/
def stftStep (nperseg noverlap : ℕ) : ℕ := nperseg - noverlap

/-- Number of complete segments scipy extracts from `n` samples. -/
def stftSegments (n nperseg noverlap : ℕ) : ℕ :=
  if n < nperseg then 0
  else (n - nperseg) / stftStep nperseg noverlap + 1

/-- The `m`-th analysis segment of the signal. -/
def stftSegment (x : List ℝ) (nperseg noverlap m : ℕ) : List ℝ :=
  (x.drop (m * stftStep nperseg noverlap)).take nperseg

/-- Constant detrending (scipy default `detrend='constant'`): subtract the
segment mean. -/
noncomputable def detrendConstant (seg : List ℝ) : List ℝ :=
  seg.map (fun v => v - seg.sum / (seg.length : ℝ))

/-- Real part of the windowed discrete Fourier transform of a segment at
frequency bin `k`. -/
noncomputable def dftRe (w : ℕ → ℝ) (seg : List ℝ) (k : ℕ) : ℝ :=
  ∑ n in Finset.range seg.length,
    w n * seg.getD n 0 * Real.cos (2 * Real.pi * k * n / seg.length)

/-- Imaginary part of the windowed discrete Fourier transform of a segment
at frequency bin `k`. -/
noncomputable def dftIm (w : ℕ → ℝ) (seg : List ℝ) (k : ℕ) : ℝ :=
  ∑ n in Finset.range seg.length,
    w n * seg.getD n 0 * Real.sin (2 * Real.pi * k * n / seg.length)

/-- One bin of the power spectral density (`scaling='density'`): squared
DFT magnitude of the detrended, windowed segment over `fs * sum(w^2)`,
with the one-sided doubling factor `c`. -/
noncomputable def psdBin (w : ℕ → ℝ) (c fs : ℝ) (x : List ℝ)
    (nperseg noverlap k m : ℕ) : ℝ :=
  let seg := detrendConstant (stftSegment x nperseg noverlap m)
  c * ((dftRe w seg k) ^ 2 + (dftIm w seg k) ^ 2) /
    (fs * ∑ n in Finset.range nperseg, (w n) ^ 2)

/-- The dB conversion of `compute_spectrogram` (eeg_service.py, line 74):
`10 * log10(Sxx + 1e-10)`. -/
noncomputable def powerDb (p : ℝ) : ℝ :=
  10 * Real.logb 10 (p + 1e-10)

/-- Model of `compute_spectrogram` (eeg_service.py, lines 59-80):
the scipy spectrogram (one-sided STFT power spectral density, parameterised
by the window function `w` and one-sided scaling `c`, both internal to
scipy) followed by the elementwise dB conversion.  The power matrix has one
row per frequency bin and one column per segment. -/
noncomputable def compute_spectrogram (w : ℕ → ℝ) (c : ℝ) (x : List ℝ)
    (fs : ℝ) (nperseg noverlap : ℕ) : List (List ℝ) :=
  (List.range (nperseg / 2 + 1)).map (fun k =>
    (List.range (stftSegments x.length nperseg noverlap)).map (fun m =>
      powerDb (psdBin w c fs x nperseg noverlap k m)))

/-- The recording duration of claim C4: last valid time minus first valid
time. -/
def recordingDurationOf (tv : List ℚ) : ℚ :=
  tv.getLastD 0 - tv.headI

/-- A key the if/elif chain assigns to the ECG role. -/
def matchesEcgKey (k : String) : Bool :=
  lowerContains k "ecg"

/-- A key the if/elif chain assigns to the ABP role: not an ECG match, and
containing one of the ABP vocabulary words. -/
def matchesAbpKey (k : String) : Bool :=
  !matchesEcgKey k &&
    (lowerContains k "abp" || lowerContains k "arterial" || lowerContains k "art")

/-- A key the if/elif chain assigns to the Pleth role. -/
def matchesPlethKey (k : String) : Bool :=
  !matchesEcgKey k &&
    !(lowerContains k "abp" || lowerContains k "arterial" || lowerContains k "art") &&
    lowerContains k "pleth"

/-- A key the if/elif chain assigns to the Respiration role. -/
def matchesRespKey (k : String) : Bool :=
  !matchesEcgKey k &&
    !(lowerContains k "abp" || lowerContains k "arterial" || lowerContains k "art") &&
    !lowerContains k "pleth" &&
    (lowerContains k "resp" || lowerContains k "impedance")

/-- A key the numeric loop assigns to the heart-rate role (case-sensitive). -/
def matchesHrKey (k : String) : Bool :=
  rawContains k "Heart Rate" || rawContains k "HR"

/-- A key the numeric loop assigns to the SpO2 role (case-sensitive). -/
def matchesSpo2Key (k : String) : Bool :=
  rawContains k "SpO2" || rawContains k "Oxigen Saturation" ||
    rawContains k "Arterial Oxigen"

/-- A key the numeric loop assigns to the MAP role (case-sensitive). -/
def matchesMapKey (k : String) : Bool :=
  rawContains k "MAP" || rawContains k "MEAN"

/-- The last element of `l` as an option, falling back to `o` when `l` is
empty: the value a fold-with-overwrite leaves in a field it started at `o`. -/
def lastOr {α : Type} (l : List α) (o : Option α) : Option α :=
  match l.getLast? with
  | some x => some x
  | none => o

/-- The shared EEG window mask for a recording's time vector, offset and
duration: the composition of validity filter and window bounds used
identically by `get_eeg_live_data` and `get_eeg_spectrograms`. -/
def eegWmaskOf (time : List ℚ) (off dur : ℚ) : List Bool :=
  windowMaskOf (timeValidOf time) (startTimeOf (timeValidOf time) off)
    (endTimeOf (timeValidOf time) (startTimeOf (timeValidOf time) off) dur)

/-- The `result` of `get_eeg_spectrograms` right after the metadata fields
are filled in (eeg_service.py, lines 113-114), before any channel is
processed. -/
def specResInit (α : Type) (md : EEGMetadata) (data : List (List ℚ))
    (off dur : ℚ) : SpecResult α :=
  { baseSpecResult α off dur with
      channel_names := effChannelNames md data,
      sampling_freq := md.sampling_freq }

theorem lastOr_nil {α : Type} (o : Option α) : lastOr [] o = o := rfl

theorem lastOr_cons {α : Type} (x : α) (l : List α) (o : Option α) :
    lastOr (x :: l) o = lastOr l (some x) := by
  cases l with
  | nil => rfl
  | cons y t =>
      unfold lastOr
      rw [List.getLast?_cons_cons]
      cases h : (y :: t).getLast? with
      | some z => rfl
      | none => simp at h

theorem lastOr_none {α : Type} (l : List α) : lastOr l none = l.getLast? := by
  unfold lastOr
  cases l.getLast? <;> rfl

theorem foldl_waveKeyStep (keys : List String) : ∀ acc : RoleKeys,
    keys.foldl waveKeyStep acc =
      { ecg_key := lastOr (keys.filter matchesEcgKey) acc.ecg_key,
        abp_key := lastOr (keys.filter matchesAbpKey) acc.abp_key,
        pleth_key := lastOr (keys.filter matchesPlethKey) acc.pleth_key,
        resp_key := lastOr (keys.filter matchesRespKey) acc.resp_key } := by
  induction keys with
  | nil => intro acc; rfl
  | cons k ks ih =>
    intro acc
    rw [List.foldl_cons, ih]
    cases h1 : lowerContains k "ecg" with
    | true =>
      simp [waveKeyStep, matchesEcgKey, matchesAbpKey, matchesPlethKey,
        matchesRespKey, h1, List.filter_cons, lastOr_cons]
    | false =>
      cases h2 : (lowerContains k "abp" || lowerContains k "arterial" ||
          lowerContains k "art") with
      | true =>
        simp [waveKeyStep, matchesEcgKey, matchesAbpKey, matchesPlethKey,
          matchesRespKey, h1, h2, List.filter_cons, lastOr_cons]
      | false =>
        cases h3 : lowerContains k "pleth" with
        | true =>
          simp [waveKeyStep, matchesEcgKey, matchesAbpKey, matchesPlethKey,
            matchesRespKey, h1, h2, h3, List.filter_cons, lastOr_cons]
        | false =>
          cases h4 : (lowerContains k "resp" || lowerContains k "impedance") with
          | true =>
            simp [waveKeyStep, matchesEcgKey, matchesAbpKey, matchesPlethKey,
              matchesRespKey, h1, h2, h3, h4, List.filter_cons, lastOr_cons]
          | false =>
            simp [waveKeyStep, matchesEcgKey, matchesAbpKey, matchesPlethKey,
              matchesRespKey, h1, h2, h3, h4, List.filter_cons]

theorem foldl_numericKeyStep (keys : List String) : ∀ acc : NumericKeys,
    keys.foldl numericKeyStep acc =
      { hr_key := lastOr (keys.filter matchesHrKey) acc.hr_key,
        spo2_key := lastOr (keys.filter matchesSpo2Key) acc.spo2_key,
        map_key := lastOr (keys.filter matchesMapKey) acc.map_key } := by
  induction keys with
  | nil => intro acc; rfl
  | cons k ks ih =>
    intro acc
    rw [List.foldl_cons, ih]
    cases h1 : (rawContains k "Heart Rate" || rawContains k "HR") <;>
      cases h2 : (rawContains k "SpO2" || rawContains k "Oxigen Saturation" ||
        rawContains k "Arterial Oxigen") <;>
      cases h3 : (rawContains k "MAP" || rawContains k "MEAN") <;>
      simp [numericKeyStep, matchesHrKey, matchesSpo2Key, matchesMapKey,
        h1, h2, h3, List.filter_cons, lastOr_cons]

/-- Claim C3, counterexample: with the series names `["ECG I", "ECG II"]`,
both matching the ECG vocabulary, the selected key is the LAST matching
name, not the first; and the numeric heart-rate selection is
case-SENSITIVE: the key `"heart rate"` is not matched at all, while
`"Heart Rate"` is. -/
theorem C3_counterexample :
    (selectWaveKeys ["ECG I", "ECG II"]).ecg_key = some "ECG II" ∧
    (selectWaveKeys ["ECG I", "ECG II"]).ecg_key ≠ some "ECG I" ∧
    (selectNumericKeys ["heart rate"]).hr_key = none ∧
    (selectNumericKeys ["Heart Rate"]).hr_key = some "Heart Rate" := by
  refine ⟨by decide, by decide, by decide, by decide⟩

/-- Claim C3, amended: selection is by substring match (case-insensitive
for the ECG/ABP/Pleth/Respiration waveform roles, which lowercase the key;
case-SENSITIVE for the Heart-Rate/SpO2/MAP numeric roles), one role per
waveform key via the if/elif chain; and when several names match a role,
the LAST matching name in iteration order is selected (later keys
overwrite earlier assignments). -/
theorem C3_selection_last_match (keys : List String) :
    (selectWaveKeys keys).ecg_key = (keys.filter matchesEcgKey).getLast? ∧
    (selectWaveKeys keys).abp_key = (keys.filter matchesAbpKey).getLast? ∧
    (selectWaveKeys keys).pleth_key = (keys.filter matchesPlethKey).getLast? ∧
    (selectWaveKeys keys).resp_key = (keys.filter matchesRespKey).getLast? ∧
    (selectNumericKeys keys).hr_key = (keys.filter matchesHrKey).getLast? ∧
    (selectNumericKeys keys).spo2_key = (keys.filter matchesSpo2Key).getLast? ∧
    (selectNumericKeys keys).map_key = (keys.filter matchesMapKey).getLast? := by
  unfold selectWaveKeys selectNumericKeys
  rw [foldl_waveKeyStep, foldl_numericKeyStep]
  simp [lastOr_none]

theorem sorted_le_getLastD : ∀ (l : List ℚ), List.Sorted (· ≤ ·) l →
    ∀ x ∈ l, x ≤ l.getLastD 0
  | [], _, x, hx => absurd hx (List.not_mem_nil x)
  | [a], _, x, hx => by
      rcases List.mem_singleton.mp hx with rfl
      simp [List.getLastD_eq_getLast?]
  | a :: b :: t, hs, x, hx => by
      have h1 : (a :: b :: t).getLastD 0 = (b :: t).getLastD 0 := by
        simp [List.getLastD_eq_getLast?, List.getLast?_cons_cons]
      rw [h1]
      rcases List.sorted_cons.mp hs with ⟨ha, hs'⟩
      rcases List.mem_cons.mp hx with rfl | hx'
      · exact le_trans (ha b (List.mem_cons_self b t))
          (sorted_le_getLastD (b :: t) hs' b (List.mem_cons_self b t))
      · exact sorted_le_getLastD (b :: t) hs' x hx'

theorem windowMask_mem_le {tv : List ℚ} {start endT t : ℚ}
    (ht : t ∈ applyMask (windowMaskOf tv start endT) tv) :
    t ∈ tv ∧ start ≤ t ∧ t ≤ endT := by
  rw [windowMaskOf] at ht
  have h := mem_applyMask_map _ _ _ ht
  exact ⟨h.1, of_decide_eq_true h.2⟩

theorem windowHead (tv : List ℚ) (off dur : ℚ) (hdur : 0 < dur)
    (hsort : List.Sorted (· ≤ ·) tv) (hlen : tv ≠ []) (hoff : off ≤ 0) :
    ((applyMask (windowMaskOf tv (startTimeOf tv off)
        (endTimeOf tv (startTimeOf tv off) dur)) tv).map
      (fun t => t - startTimeOf tv off)).head? = some 0 := by
  cases tv with
  | nil => exact absurd rfl hlen
  | cons a rest =>
    have hstart : startTimeOf (a :: rest) off = a := by
      rw [startTimeOf]
      simp [List.headI]
      exact hoff
    have hend : a ≤ endTimeOf (a :: rest) (startTimeOf (a :: rest) off) dur := by
      rw [endTimeOf, hstart, le_min_iff]
      constructor
      · exact sorted_le_getLastD _ hsort a (List.mem_cons_self a rest)
      · linarith
    have hmask : windowMaskOf (a :: rest) (startTimeOf (a :: rest) off)
        (endTimeOf (a :: rest) (startTimeOf (a :: rest) off) dur) =
        true :: (rest.map (fun t => decide (startTimeOf (a :: rest) off ≤ t ∧
          t ≤ endTimeOf (a :: rest) (startTimeOf (a :: rest) off) dur))) := by
      rw [windowMaskOf, List.map_cons]
      congr 1
      rw [decide_eq_true_iff]
      exact ⟨by rw [hstart], hend⟩
    rw [hmask, applyMask, List.map_cons, List.head?_cons, hstart, sub_self]

theorem windowMask_any_false (tv : List ℚ) (off dur : ℚ)
    (hsort : List.Sorted (· ≤ ·) tv)
    (hoff : recordingDurationOf tv < off) :
    (windowMaskOf tv (startTimeOf tv off)
      (endTimeOf tv (startTimeOf tv off) dur)).any id = false := by
  rw [windowMaskOf]
  rw [List.any_eq_false]
  intro b hb
  rcases List.mem_map.mp hb with ⟨t, htv, rfl⟩
  simp only [id, decide_eq_true_eq]
  rintro ⟨hst, -⟩
  have h1 : t ≤ tv.getLastD 0 := sorted_le_getLastD tv hsort t htv
  have h2 : tv.getLastD 0 < tv.headI + off := by
    rw [recordingDurationOf] at hoff
    linarith
  have h3 : tv.headI + off ≤ startTimeOf tv off := le_max_right _ _
  linarith

theorem liveChannels_time_nonneg (rec : Recording) (off : ℚ) :
    ∀ e ∈ liveChannels rec off, ∀ t ∈ e.2.time, 0 ≤ t := by
  intro e he t ht
  simp only [liveChannels] at he
  split at he
  · split at he
    · rcases List.mem_map.mp he with ⟨i, hi, rfl⟩
      rcases List.mem_map.mp ht with ⟨u, hu, rfl⟩
      have h := windowMask_mem_le hu
      have := h.2.1
      linarith
    · cases he
  · cases he

theorem liveChannels_time_head (rec : Recording) (off : ℚ)
    (hsort : List.Sorted (· ≤ ·) (timeValidOf rec.time)) (hoff : off ≤ 0) :
    ∀ e ∈ liveChannels rec off, e.2.time.head? = some 0 := by
  unfold timeValidOf at hsort
  intro e he
  simp only [liveChannels] at he
  split at he
  case isTrue h1 =>
    split at he
    · rcases List.mem_map.mp he with ⟨i, hi, rfl⟩
      exact windowHead _ off liveWindowDuration (by norm_num [liveWindowDuration])
        hsort (List.ne_nil_of_length_pos (lt_trans one_pos h1)) hoff
    · cases he
  case isFalse => cases he

/-- Claim C1, counterexample: for the recording with valid times
`[1, 2, 3]` and offset `1/2`, the computed start `3/2` falls strictly
between samples, so the non-empty window's first relative time is `1/2`,
not `0`. -/
theorem C1_counterexample :
    (get_eeg_live_data ⟨[1, 2, 3], [[4, 5, 6]]⟩ (1/2)).channels =
      [("Channel_1", ⟨[1/2, 3/2], [5, 6]⟩)] ∧ (1/2 : ℚ) ≠ 0 := by
  constructor
  · norm_num [get_eeg_live_data, liveChannels, validMaskOf, applyMask,
      startTimeOf, endTimeOf, windowMaskOf, liveWindowDuration]
    rfl
  · norm_num

/-- Claim C1, amended: whenever the live-window result is non-empty, every
relative time in it (hence the first) is at least 0; and the first relative
time equals 0 whenever the computed start coincides with the first valid
sample, in particular for every offset <= 0.  For a positive offset whose
start falls strictly between samples the first relative time is positive
(see `C1_counterexample`). -/
theorem C1_first_relative_time (rec : Recording) (off : ℚ)
    (hsort : List.Sorted (· ≤ ·) (timeValidOf rec.time)) :
    ∀ e ∈ (get_eeg_live_data rec off).channels,
      (∀ t ∈ e.2.time, 0 ≤ t) ∧ (off ≤ 0 → e.2.time.head? = some 0) := by
  intro e he
  exact ⟨liveChannels_time_nonneg rec off e he,
    fun hoff => liveChannels_time_head rec off hsort hoff e he⟩

/-- Witness for `C1_first_relative_time` at the recording `[1, 2]` with
channel data `[5, 6]` and offset `-1`. -/
theorem C1_witness :
    (∀ t ∈ (("Channel_1", ⟨[0, 1], [5, 6]⟩) : String × ChannelWindow).2.time, 0 ≤ t) ∧
    ((-1 : ℚ) ≤ 0 →
      (("Channel_1", ⟨[0, 1], [5, 6]⟩) : String × ChannelWindow).2.time.head? = some 0) :=
  C1_first_relative_time ⟨[1, 2], [[5, 6]]⟩ (-1)
    (by norm_num [timeValidOf, validMaskOf, applyMask])
    ("Channel_1", ⟨[0, 1], [5, 6]⟩)
    (by
      norm_num [get_eeg_live_data, liveChannels, validMaskOf, applyMask,
        startTimeOf, endTimeOf, windowMaskOf, liveWindowDuration]
      rfl)

/-- Claim C4, counterexample: for valid times `[1, 2]` the recording
duration is `1`; at offset exactly `1` (`offset == recording_duration`) the
start equals the last valid time, the inclusive mask selects that sample,
and the window is NOT empty. -/
theorem C4_counterexample :
    recordingDurationOf (timeValidOf [1, 2]) = 1 ∧
    (get_eeg_live_data ⟨[1, 2], [[5, 6]]⟩ 1).channels =
      [("Channel_1", ⟨[0], [6]⟩)] := by
  constructor
  · norm_num [recordingDurationOf, timeValidOf, validMaskOf, applyMask]
  · norm_num [get_eeg_live_data, liveChannels, validMaskOf, applyMask,
      startTimeOf, endTimeOf, windowMaskOf, liveWindowDuration]
    rfl

/-- Claim C4, amended: for every recording with a monotone valid time axis
and every offset STRICTLY greater than the recording duration, the returned
window has no channels, and the result is still well-formed (the model is
total, so no exception is raised).  At `offset == recording_duration` the
window instead contains the samples at the last valid time (see
`C4_counterexample`). -/
theorem C4_offset_beyond_duration (rec : Recording) (off : ℚ)
    (hsort : List.Sorted (· ≤ ·) (timeValidOf rec.time))
    (hoff : recordingDurationOf (timeValidOf rec.time) < off) :
    (get_eeg_live_data rec off).channels = [] ∧
    (get_eeg_live_data rec off).time_offset = off ∧
    (get_eeg_live_data rec off).window_duration = liveWindowDuration := by
  refine ⟨?_, rfl, rfl⟩
  unfold timeValidOf at hsort hoff
  show liveChannels rec off = []
  simp only [liveChannels]
  split
  · split
    case isTrue h2 =>
      have h3 := windowMask_any_false (applyMask (validMaskOf rec.time) rec.time)
        off liveWindowDuration hsort hoff
      rw [h3] at h2
      cases h2
    case isFalse => rfl
  · rfl

/-- Witness for `C4_offset_beyond_duration` at the recording `[1, 2]` with
offset `2 > 1 = recording_duration`. -/
theorem C4_witness :
    (get_eeg_live_data ⟨[1, 2], [[5, 6]]⟩ 2).channels = [] ∧
    (get_eeg_live_data ⟨[1, 2], [[5, 6]]⟩ 2).time_offset = 2 ∧
    (get_eeg_live_data ⟨[1, 2], [[5, 6]]⟩ 2).window_duration = liveWindowDuration :=
  C4_offset_beyond_duration ⟨[1, 2], [[5, 6]]⟩ 2
    (by norm_num [timeValidOf, validMaskOf, applyMask])
    (by norm_num [recordingDurationOf, timeValidOf, validMaskOf, applyMask])

/-- Claim C5, confirmed: for a negative offset the window start clamps to
the first valid sample's time, every relative time in the result is
nonnegative, and the model is total, so no exception is raised. -/
theorem C5_negative_offset_clamps (rec : Recording) (off : ℚ) (hoff : off < 0) :
    startTimeOf (timeValidOf rec.time) off = (timeValidOf rec.time).headI ∧
    ∀ e ∈ (get_eeg_live_data rec off).channels, ∀ t ∈ e.2.time, 0 ≤ t := by
  constructor
  · rw [startTimeOf]
    exact max_eq_left (by linarith)
  · exact liveChannels_time_nonneg rec off

/-- Witness for `C5_negative_offset_clamps` at offset `-1`. -/
theorem C5_witness :
    startTimeOf (timeValidOf [1, 2]) (-1) = (timeValidOf [1, 2]).headI ∧
    ∀ e ∈ (get_eeg_live_data ⟨[1, 2], [[5, 6]]⟩ (-1)).channels,
      ∀ t ∈ e.2.time, 0 ≤ t :=
  C5_negative_offset_clamps ⟨[1, 2], [[5, 6]]⟩ (-1) (by norm_num)

theorem liveChannels_time_ne_nil (rec : Recording) (off : ℚ) :
    ∀ e ∈ liveChannels rec off, e.2.time ≠ [] := by
  intro e he
  simp only [liveChannels] at he
  split at he
  · split at he
    case isTrue h2 =>
      rcases List.mem_map.mp he with ⟨i, hi, rfl⟩
      show List.map _ _ ≠ []
      rw [ne_eq, List.map_eq_nil_iff]
      rw [windowMaskOf] at h2 ⊢
      exact applyMask_ne_nil _ _ h2
    case isFalse => cases he
  · cases he

/-- Claim C2, counterexample: in the vitals path, the waveform named
`"ecg"` has 2 valid samples but none inside the window computed for offset
`10` (start `11` is past the last sample `2`), yet the result contains an
`ecg` entry with EMPTY time/value arrays, contradicting the claim that such
a waveform is absent from the result. -/
theorem C2_counterexample :
    get_vitals_live_data [("ecg", ([1, 2], [5, 6]))] 10 =
      [("ecg", "ecg", ⟨[], []⟩)] := by
  have hsel : selectWaveKeys ["ecg"] = { ecg_key := some "ecg" } := by decide
  norm_num [get_vitals_live_data, hsel, vitalsRoleWindow, List.lookup,
    validMaskOf, applyMask, startTimeOf, endTimeOf, windowMaskOf,
    liveWindowDuration]

/-- Claim C2, amended: the absence guarantee holds for the multi-channel
EEG path — when the shared window mask selects no sample the result has no
channel entries at all, and every channel entry present has a non-empty
time array — but NOT for the vitals path: there, a role-matched waveform
with at least 2 valid samples is always present (even when no sample falls
inside the window, in which case its arrays are empty, see
`C2_counterexample`); a waveform is absent only when no key matches its
role or fewer than 2 valid samples remain. -/
theorem C2_absent_vs_empty :
    (∀ (rec : Recording) (off : ℚ),
      ∀ e ∈ (get_eeg_live_data rec off).channels, e.2.time ≠ []) ∧
    (∀ (rec : Recording) (off : ℚ),
      (windowMaskOf (timeValidOf rec.time)
        (startTimeOf (timeValidOf rec.time) off)
        (endTimeOf (timeValidOf rec.time)
          (startTimeOf (timeValidOf rec.time) off) liveWindowDuration)).any id
          = false →
      (get_eeg_live_data rec off).channels = []) ∧
    (∀ (waves : List (String × List ℚ × List ℚ)) (off : ℚ) (k : String)
        (t v : List ℚ),
      (selectWaveKeys (waves.map Prod.fst)).ecg_key = some k →
      waves.lookup k = some (t, v) →
      1 < (timeValidOf t).length →
      ∃ w, ("ecg", k, w) ∈ get_vitals_live_data waves off) := by
  refine ⟨liveChannels_time_ne_nil, ?_, ?_⟩
  · intro rec off h
    unfold timeValidOf at h
    show liveChannels rec off = []
    simp only [liveChannels]
    split
    · split
      case isTrue h2 =>
        rw [h] at h2
        cases h2
      case isFalse => rfl
    · rfl
  · intro waves off k t v hsel hlook hlen
    unfold timeValidOf at hlen
    have hrw : ∃ w, vitalsRoleWindow waves (some k) off = some (k, w) := by
      unfold vitalsRoleWindow
      simp only [hlook]
      rw [if_pos hlen]
      exact ⟨_, rfl⟩
    rcases hrw with ⟨w, hw⟩
    refine ⟨w, ?_⟩
    simp only [get_vitals_live_data]
    rw [hsel, hw]
    simp

theorem specChannelLoop_fields {α : Type} (f : List ℚ → Except String (SpecData α))
    (data : List (List ℚ)) (vmask wmask : List Bool) (np : ℤ) :
    ∀ (cs : List (ℕ × String)) (res : SpecResult α),
      (specChannelLoop f data vmask wmask np res cs).channel_names = res.channel_names ∧
      (specChannelLoop f data vmask wmask np res cs).time_offset = res.time_offset ∧
      (specChannelLoop f data vmask wmask np res cs).window_duration = res.window_duration ∧
      (specChannelLoop f data vmask wmask np res cs).sampling_freq = res.sampling_freq := by
  intro cs
  induction cs with
  | nil => intro res; exact ⟨rfl, rfl, rfl, rfl⟩
  | cons c rest ih =>
    intro res
    obtain ⟨i, n⟩ := c
    simp only [specChannelLoop]
    split
    · exact ⟨rfl, rfl, rfl, rfl⟩
    · split
      · exact ih res
      · cases hf : f (windowedChannel data vmask wmask i) with
        | error msg => exact ⟨rfl, rfl, rfl, rfl⟩
        | ok s =>
          dsimp only
          refine ⟨?_, ?_, ?_, ?_⟩
          · rw [(ih _).1]; split <;> rfl
          · rw [(ih _).2.1]; split <;> rfl
          · rw [(ih _).2.2.1]; split <;> rfl
          · rw [(ih _).2.2.2]; split <;> rfl

theorem dictInsert_mem {α : Type} {l : List (String × α)} {k : String} {v : α}
    {e : String × α} (he : e ∈ dictInsert l k v) : e ∈ l ∨ e = (k, v) := by
  unfold dictInsert at he
  split at he
  · rcases List.mem_map.mp he with ⟨p, hp, rfl⟩
    by_cases hpk : (p.1 == k) = true
    · rw [if_pos hpk]
      exact Or.inr rfl
    · rw [if_neg hpk]
      exact Or.inl hp
  · rcases List.mem_append.mp he with h | h
    · exact Or.inl h
    · exact Or.inr (List.mem_singleton.mp h)

theorem dictInsert_of_not_mem {α : Type} {l : List (String × α)} {k : String}
    (v : α) (hk : k ∉ l.map Prod.fst) : dictInsert l k v = l ++ [(k, v)] := by
  unfold dictInsert
  rw [if_neg]
  intro h
  rcases List.any_eq_true.mp h with ⟨p, hp, hpk⟩
  have hpk' : p.1 = k := by simpa using hpk
  exact hk (List.mem_map.mpr ⟨p, hp, hpk'⟩)

theorem specChannelLoop_mem {α : Type} (f : List ℚ → Except String (SpecData α))
    (data : List (List ℚ)) (vmask wmask : List Bool) (np : ℤ) :
    ∀ (cs : List (ℕ × String)) (res : SpecResult α) (e : String × α),
      e ∈ (specChannelLoop f data vmask wmask np res cs).spectrograms →
      e ∈ res.spectrograms ∨
        ∃ i, (i, e.1) ∈ cs ∧ i < data.length ∧
          np ≤ ((windowedChannel data vmask wmask i).length : ℤ) ∧
          ∃ s, f (windowedChannel data vmask wmask i) = Except.ok s ∧
            e.2 = s.power := by
  intro cs
  induction cs with
  | nil => intro res e he; exact Or.inl he
  | cons c rest ih =>
    intro res e he
    obtain ⟨i, n⟩ := c
    simp only [specChannelLoop] at he
    split at he
    · exact Or.inl he
    case isFalse h1 =>
      split at he
      · rcases ih res e he with h | ⟨j, hj, hjb, hjl, hs⟩
        · exact Or.inl h
        · exact Or.inr ⟨j, List.mem_cons_of_mem _ hj, hjb, hjl, hs⟩
      case isFalse h2 =>
        cases hfe : f (windowedChannel data vmask wmask i) with
        | error msg =>
          rw [hfe] at he
          dsimp only at he
          exact Or.inl he
        | ok s =>
          rw [hfe] at he
          dsimp only at he
          rcases ih _ e he with h | ⟨j, hj, hjb, hjl, hs⟩
          · have h' : e ∈ dictInsert res.spectrograms n s.power := by
              revert h
              split <;> exact fun h => h
            rcases dictInsert_mem h' with h'' | h''
            · exact Or.inl h''
            · rcases h'' with rfl
              exact Or.inr ⟨i, List.mem_cons_self _ _, not_le.mp h1,
                not_lt.mp h2, s, hfe, rfl⟩
          · exact Or.inr ⟨j, List.mem_cons_of_mem _ hj, hjb, hjl, hs⟩

theorem specChannelLoop_cons {α : Type} (f : List ℚ → Except String (SpecData α))
    (data : List (List ℚ)) (vmask wmask : List Bool) (np : ℤ)
    (res : SpecResult α) (i : ℕ) (n : String) (tail : List (ℕ × String)) :
    specChannelLoop f data vmask wmask np res ((i, n) :: tail) =
      if data.length ≤ i then res
      else if ((windowedChannel data vmask wmask i).length : ℤ) < np then
        specChannelLoop f data vmask wmask np res tail
      else
        match f (windowedChannel data vmask wmask i) with
        | Except.error msg => { res with error := some msg }
        | Except.ok s =>
            specChannelLoop f data vmask wmask np
              (if res.frequencies.isEmpty then
                { res with
                    spectrograms := dictInsert res.spectrograms n s.power,
                    frequencies := s.frequencies, times := s.times }
              else { res with
                      spectrograms := dictInsert res.spectrograms n s.power })
              tail := rfl

theorem specChannelLoop_append {α : Type} (f : List ℚ → Except String (SpecData α))
    (data : List (List ℚ)) (vmask wmask : List Bool) (np : ℤ) :
    ∀ (cs₁ cs₂ : List (ℕ × String)) (res : SpecResult α),
      (∀ p ∈ cs₁, p.1 < data.length) →
      (specChannelLoop f data vmask wmask np res cs₁).error = none →
      specChannelLoop f data vmask wmask np res (cs₁ ++ cs₂) =
        specChannelLoop f data vmask wmask np
          (specChannelLoop f data vmask wmask np res cs₁) cs₂ := by
  intro cs₁
  induction cs₁ with
  | nil => intro cs₂ res _ _; rfl
  | cons c rest ih =>
    intro cs₂ res hb he
    obtain ⟨i, n⟩ := c
    have hib : i < data.length := hb (i, n) (List.mem_cons_self _ _)
    have hb' : ∀ p ∈ rest, p.1 < data.length :=
      fun p hp => hb p (List.mem_cons_of_mem _ hp)
    have hinner := specChannelLoop_cons f data vmask wmask np res i n rest
    have hL := specChannelLoop_cons f data vmask wmask np res i n (rest ++ cs₂)
    rw [if_neg (not_le.mpr hib)] at hinner hL
    by_cases h2 : ((windowedChannel data vmask wmask i).length : ℤ) < np
    · rw [if_pos h2] at hinner hL
      rw [hinner] at he
      rw [List.cons_append, hL, hinner]
      exact ih cs₂ res hb' he
    · cases hfe : f (windowedChannel data vmask wmask i) with
      | error msg =>
        rw [if_neg h2, hfe] at hinner
        dsimp only at hinner
        rw [hinner] at he
        cases he
      | ok s =>
        rw [if_neg h2, hfe] at hinner hL
        dsimp only at hinner hL
        rw [hinner] at he
        rw [List.cons_append, hL, hinner]
        exact ih cs₂ _ hb' he

theorem specChannelLoop_length {α : Type} (f : List ℚ → Except String (SpecData α))
    (data : List (List ℚ)) (vmask wmask : List Bool) (np : ℤ) :
    ∀ (cs : List (ℕ × String)) (res : SpecResult α),
      (cs.map Prod.snd).Nodup →
      (∀ p ∈ cs, p.1 < data.length ∧
        np ≤ ((windowedChannel data vmask wmask p.1).length : ℤ) ∧
        ∃ s, f (windowedChannel data vmask wmask p.1) = Except.ok s) →
      (∀ p ∈ cs, p.2 ∉ res.spectrograms.map Prod.fst) →
      (specChannelLoop f data vmask wmask np res cs).spectrograms.length =
        res.spectrograms.length + cs.length := by
  intro cs
  induction cs with
  | nil => intro res _ _ _; rfl
  | cons c rest ih =>
    intro res hnd hb hdisj
    obtain ⟨i, n⟩ := c
    obtain ⟨hib, hlen, s, hfe⟩ := hb (i, n) (List.mem_cons_self _ _)
    have hnmem : n ∉ res.spectrograms.map Prod.fst :=
      hdisj (i, n) (List.mem_cons_self _ _)
    have hins := dictInsert_of_not_mem (l := res.spectrograms) s.power hnmem
    have hnd' : (rest.map Prod.snd).Nodup := by
      rw [List.map_cons] at hnd
      exact (List.nodup_cons.mp hnd).2
    have hnrest : n ∉ rest.map Prod.snd := by
      rw [List.map_cons] at hnd
      exact (List.nodup_cons.mp hnd).1
    have hb' := fun p hp => hb p (List.mem_cons_of_mem _ hp)
    simp only [specChannelLoop]
    rw [if_neg (not_le.mpr hib), if_neg (not_lt.mpr hlen), hfe]
    dsimp only
    have h3 : ∀ (r2 : SpecResult α),
        r2.spectrograms = res.spectrograms ++ [(n, s.power)] →
        (specChannelLoop f data vmask wmask np r2 rest).spectrograms.length =
          res.spectrograms.length + ((i, n) :: rest).length := by
      intro r2 h2
      have hd2 : ∀ p ∈ rest, p.2 ∉ r2.spectrograms.map Prod.fst := by
        intro p hp hmem
        rw [h2, List.map_append] at hmem
        rcases List.mem_append.mp hmem with hmem | hmem
        · exact hdisj p (List.mem_cons_of_mem _ hp) hmem
        · have hpn : p.2 = n := by simpa using hmem
          exact hnrest (hpn ▸ List.mem_map_of_mem Prod.snd hp)
      rw [ih r2 hnd' hb' hd2, h2]
      simp only [List.length_append, List.length_cons, List.length_nil]
      omega
    apply h3
    split <;> (dsimp only; rw [hins])

theorem specChannelLoop_error {α : Type} (f : List ℚ → Except String (SpecData α))
    (data : List (List ℚ)) (vmask wmask : List Bool) (np : ℤ)
    (hf : ∀ cd msg, f cd ≠ Except.error msg) :
    ∀ (cs : List (ℕ × String)) (res : SpecResult α),
      (specChannelLoop f data vmask wmask np res cs).error = res.error := by
  intro cs
  induction cs with
  | nil => intro res; rfl
  | cons c rest ih =>
    intro res
    obtain ⟨i, n⟩ := c
    simp only [specChannelLoop]
    split
    · rfl
    · split
      · exact ih res
      · cases hfe : f (windowedChannel data vmask wmask i) with
        | error msg => exact absurd hfe (hf _ msg)
        | ok s =>
          dsimp only
          rw [ih _]
          split <;> rfl

theorem get_eeg_spectrograms_ok {α : Type}
    (compute : ℚ → ℤ → ℤ → List ℚ → Except String (SpecData α))
    (time : List ℚ) (data : List (List ℚ)) (md : EEGMetadata) (off dur : ℚ)
    (hlen2 : ¬ (timeValidOf time).length < 2)
    (hmask : (eegWmaskOf time off dur).any id = true) :
    get_eeg_spectrograms compute (Except.ok (time, data)) md off dur =
      specChannelLoop
        (compute md.sampling_freq (npersegOf md.sampling_freq)
          (noverlapOf md.sampling_freq))
        data (validMaskOf time) (eegWmaskOf time off dur)
        (npersegOf md.sampling_freq)
        (specResInit α md data off dur) (effChannelNames md data).enum := by
  unfold timeValidOf at hlen2
  unfold eegWmaskOf timeValidOf at hmask
  unfold eegWmaskOf timeValidOf specResInit
  simp only [get_eeg_spectrograms]
  rw [if_neg hlen2, if_pos hmask]

theorem get_eeg_spectrograms_degenerate {α : Type}
    (compute : ℚ → ℤ → ℤ → List ℚ → Except String (SpecData α))
    (time : List ℚ) (data : List (List ℚ)) (md : EEGMetadata) (off dur : ℚ)
    (h : (timeValidOf time).length < 2 ∨ (eegWmaskOf time off dur).any id = false) :
    get_eeg_spectrograms compute (Except.ok (time, data)) md off dur =
      specResInit α md data off dur := by
  by_cases hlen2 : (timeValidOf time).length < 2
  · unfold timeValidOf at hlen2
    unfold specResInit
    simp only [get_eeg_spectrograms]
    rw [if_pos hlen2]
  · have hmask : (eegWmaskOf time off dur).any id = false := by
      rcases h with h | h
      · exact absurd h hlen2
      · exact h
    unfold eegWmaskOf timeValidOf at hmask
    unfold timeValidOf at hlen2
    unfold specResInit
    simp only [get_eeg_spectrograms]
    rw [if_neg hlen2, hmask, if_neg (by simp : ¬ (false = true))]

/-- Claim C6, confirmed: the spectrogram parameters are
`segment_length = min(256, floor(fs))` (Python `int()` truncation agrees
with the floor for nonnegative `fs`) and `overlap = segment_length div 2`;
every channel present in the `spectrograms` mapping has a windowed sample
count of at least `segment_length` (so a shorter channel is absent, never
present as an empty matrix); and when the per-channel computation never
raises, the whole batch reports no error, in particular skipping a short
channel raises none. -/
theorem C6_segment_length_and_short_channel_omission {α : Type}
    (compute : ℚ → ℤ → ℤ → List ℚ → Except String (SpecData α))
    (time : List ℚ) (data : List (List ℚ)) (md : EEGMetadata) (off dur : ℚ)
    (hfs : 0 ≤ md.sampling_freq) :
    npersegOf md.sampling_freq = min 256 ⌊md.sampling_freq⌋ ∧
    noverlapOf md.sampling_freq = npersegOf md.sampling_freq / 2 ∧
    (∀ e ∈ (get_eeg_spectrograms compute (Except.ok (time, data)) md off dur).spectrograms,
      ∃ i, (i, e.1) ∈ (effChannelNames md data).enum ∧ i < data.length ∧
        npersegOf md.sampling_freq ≤
          ((windowedChannel data (validMaskOf time) (eegWmaskOf time off dur) i).length : ℤ)) ∧
    ((∀ cd msg, compute md.sampling_freq (npersegOf md.sampling_freq)
        (noverlapOf md.sampling_freq) cd ≠ Except.error msg) →
      (get_eeg_spectrograms compute (Except.ok (time, data)) md off dur).error = none) := by
  refine ⟨?_, rfl, ?_, ?_⟩
  · unfold npersegOf pyInt
    rw [if_neg (not_lt.mpr hfs)]
  · intro e he
    by_cases hlen2 : (timeValidOf time).length < 2
    · rw [get_eeg_spectrograms_degenerate compute time data md off dur (Or.inl hlen2)] at he
      cases he
    · by_cases hmask : (eegWmaskOf time off dur).any id = true
      · rw [get_eeg_spectrograms_ok compute time data md off dur hlen2 hmask] at he
        rcases specChannelLoop_mem _ _ _ _ _ _ _ e he with h | ⟨i, hi, hib, hlen, -⟩
        · cases h
        · exact ⟨i, hi, hib, hlen⟩
      · rw [get_eeg_spectrograms_degenerate compute time data md off dur
          (Or.inr (Bool.not_eq_true _ ▸ hmask))] at he
        cases he
  · intro hcompute
    by_cases hlen2 : (timeValidOf time).length < 2
    · rw [get_eeg_spectrograms_degenerate compute time data md off dur (Or.inl hlen2)]
      rfl
    · by_cases hmask : (eegWmaskOf time off dur).any id = true
      · rw [get_eeg_spectrograms_ok compute time data md off dur hlen2 hmask]
        rw [specChannelLoop_error _ _ _ _ _ hcompute]
        rfl
      · rw [get_eeg_spectrograms_degenerate compute time data md off dur
          (Or.inr (Bool.not_eq_true _ ▸ hmask))]
        rfl

/-- Witness for `C6_segment_length_and_short_channel_omission` at a
1-channel recording with `fs = 1`. -/
theorem C6_witness :
    npersegOf 1 = min 256 ⌊(1 : ℚ)⌋ ∧
    noverlapOf 1 = npersegOf 1 / 2 ∧
    (∀ e ∈ (get_eeg_spectrograms
        (fun _ _ _ _ => Except.ok (⟨[], [], (0 : ℚ)⟩ : SpecData ℚ))
        (Except.ok ([1, 2], [[5, 6]])) ⟨["A"], 1⟩ 0 10).spectrograms,
      ∃ i, (i, e.1) ∈ (effChannelNames ⟨["A"], 1⟩ [[5, 6]]).enum ∧
        i < ([[5, 6]] : List (List ℚ)).length ∧
        npersegOf 1 ≤ ((windowedChannel [[5, 6]] (validMaskOf [1, 2])
          (eegWmaskOf [1, 2] 0 10) i).length : ℤ)) ∧
    ((∀ cd msg,
        (fun _ _ _ _ => Except.ok (⟨[], [], (0 : ℚ)⟩ : SpecData ℚ) :
          ℚ → ℤ → ℤ → List ℚ → Except String (SpecData ℚ))
          1 (npersegOf 1) (noverlapOf 1) cd ≠ Except.error msg) →
      (get_eeg_spectrograms
        (fun _ _ _ _ => Except.ok (⟨[], [], (0 : ℚ)⟩ : SpecData ℚ))
        (Except.ok ([1, 2], [[5, 6]])) ⟨["A"], 1⟩ 0 10).error = none) :=
  C6_segment_length_and_short_channel_omission
    (fun _ _ _ _ => Except.ok (⟨[], [], (0 : ℚ)⟩ : SpecData ℚ))
    [1, 2] [[5, 6]] ⟨["A"], 1⟩ 0 10 (by norm_num)

/-- Claim C7, confirmed: a read failure (`readData` erroring, which models
any exception in `read_eeg_hdf5`/`read_eeg_metadata`) surfaces as the
`error` field on an otherwise-initial well-formed result; a per-channel
failure surfaces as the `error` field on exactly the partially built
result: all spectrograms of the channels processed before the failing one
are preserved, and every other field of the partial result (channel names,
sampling frequency, offsets) is untouched. -/
theorem C7_exception_caught_and_partials_preserved {α : Type}
    (compute : ℚ → ℤ → ℤ → List ℚ → Except String (SpecData α))
    (time : List ℚ) (data : List (List ℚ)) (md : EEGMetadata) (off dur : ℚ)
    (msg emsg : String) (cs₁ : List (ℕ × String)) (i : ℕ) (n : String)
    (cs₂ : List (ℕ × String))
    (hsplit : (effChannelNames md data).enum = cs₁ ++ (i, n) :: cs₂)
    (hbound : ∀ p ∈ cs₁, p.1 < data.length)
    (hib : i < data.length)
    (hlen2 : ¬ (timeValidOf time).length < 2)
    (hmask : (eegWmaskOf time off dur).any id = true)
    (hok : (specChannelLoop
        (compute md.sampling_freq (npersegOf md.sampling_freq)
          (noverlapOf md.sampling_freq))
        data (validMaskOf time) (eegWmaskOf time off dur)
        (npersegOf md.sampling_freq)
        (specResInit α md data off dur) cs₁).error = none)
    (hlen : npersegOf md.sampling_freq ≤
      ((windowedChannel data (validMaskOf time) (eegWmaskOf time off dur) i).length : ℤ))
    (hfail : compute md.sampling_freq (npersegOf md.sampling_freq)
        (noverlapOf md.sampling_freq)
        (windowedChannel data (validMaskOf time) (eegWmaskOf time off dur) i) =
      Except.error msg) :
    get_eeg_spectrograms compute (Except.ok (time, data)) md off dur =
      { specChannelLoop
          (compute md.sampling_freq (npersegOf md.sampling_freq)
            (noverlapOf md.sampling_freq))
          data (validMaskOf time) (eegWmaskOf time off dur)
          (npersegOf md.sampling_freq)
          (specResInit α md data off dur) cs₁ with
          error := some msg } ∧
    get_eeg_spectrograms compute (Except.error emsg) md off dur =
      { baseSpecResult α off dur with error := some emsg } := by
  constructor
  · rw [get_eeg_spectrograms_ok compute time data md off dur hlen2 hmask, hsplit]
    rw [specChannelLoop_append _ _ _ _ _ cs₁ ((i, n) :: cs₂) _ hbound hok]
    rw [specChannelLoop_cons]
    rw [if_neg (not_le.mpr hib), if_neg (not_lt.mpr hlen), hfail]
  · rfl

/-- Witness for `C7_exception_caught_and_partials_preserved`: a
per-channel computation that always raises, failing already at the first
channel, and a failing read. -/
theorem C7_witness :
    get_eeg_spectrograms
        (fun _ _ _ _ => (Except.error "boom" : Except String (SpecData ℚ)))
        (Except.ok ([1, 2], [[5, 6], [7, 8]])) ⟨["A", "B"], 0⟩ 0 10 =
      { specResInit ℚ ⟨["A", "B"], 0⟩ [[5, 6], [7, 8]] 0 10 with
          error := some "boom" } ∧
    get_eeg_spectrograms
        (fun _ _ _ _ => (Except.error "boom" : Except String (SpecData ℚ)))
        (Except.error "readfail") ⟨["A", "B"], 0⟩ 0 10 =
      { baseSpecResult ℚ 0 10 with error := some "readfail" } :=
  C7_exception_caught_and_partials_preserved
    (fun _ _ _ _ => (Except.error "boom" : Except String (SpecData ℚ)))
    [1, 2] [[5, 6], [7, 8]] ⟨["A", "B"], 0⟩ 0 10 "boom" "readfail"
    [] 0 "A" [(1, "B")]
    rfl
    (by simp)
    (by decide)
    (by decide)
    (by norm_num [eegWmaskOf, timeValidOf, validMaskOf, applyMask,
      windowMaskOf, startTimeOf, endTimeOf])
    rfl
    (by
      have h : npersegOf 0 = 0 := by norm_num [npersegOf, pyInt]
      rw [h]
      exact Int.natCast_nonneg _)
    rfl

/-- Claim C8, confirmed: the validity filter keeps exactly the samples
whose time is non-zero (every kept time is non-zero and the kept count is
`N` minus the number of zero entries), and a recording with fewer than 2
valid samples yields the well-formed empty result in both the live path
and the spectrogram path (no exception: the models are total, and the
spectrogram result carries no error). -/
theorem C8_validity_filter (time : List ℚ) (rec : Recording) (off : ℚ)
    (hfew : (timeValidOf rec.time).length < 2) :
    (∀ t ∈ timeValidOf time, t ≠ 0) ∧
    (timeValidOf time).length =
      time.length - time.countP (fun t => decide (t = 0)) ∧
    (get_eeg_live_data rec off).channels = [] ∧
    (∀ (α : Type) (compute : ℚ → ℤ → ℤ → List ℚ → Except String (SpecData α))
        (md : EEGMetadata) (dur : ℚ),
      (get_eeg_spectrograms compute (Except.ok (rec.time, rec.data)) md off dur).spectrograms = [] ∧
      (get_eeg_spectrograms compute (Except.ok (rec.time, rec.data)) md off dur).error = none) := by
  refine ⟨?_, ?_, ?_, ?_⟩
  · intro t ht
    rw [timeValidOf_eq_filter] at ht
    exact of_decide_eq_true (List.mem_filter.mp ht).2
  · rw [timeValidOf_eq_filter]
    induction time with
    | nil => rfl
    | cons x xs ih =>
      have hc : xs.countP (fun t => decide (t = 0)) ≤ xs.length :=
        List.countP_le_length _
      cases hx : decide (x = 0) with
      | true =>
        simp only [decide_not] at ih ⊢
        simp [List.filter_cons, List.countP_cons, hx, ih]
      | false =>
        simp only [decide_not] at ih ⊢
        simp [List.filter_cons, List.countP_cons, hx, ih]
        omega
  · show liveChannels rec off = []
    unfold timeValidOf at hfew
    simp only [liveChannels]
    rw [if_neg (by omega)]
  · intro α compute md dur
    rw [get_eeg_spectrograms_degenerate compute rec.time rec.data md off dur
      (Or.inl hfew)]
    exact ⟨rfl, rfl⟩

/-- Witness for `C8_validity_filter` at the time vector `[0, 5]` and a
recording with a single valid sample. -/
theorem C8_witness :
    (∀ t ∈ timeValidOf [0, 5], t ≠ 0) ∧
    (timeValidOf [0, 5]).length =
      ([0, 5] : List ℚ).length - ([0, 5] : List ℚ).countP (fun t => decide (t = 0)) ∧
    (get_eeg_live_data ⟨[0, 7], [[1, 2]]⟩ 0).channels = [] ∧
    (∀ (α : Type) (compute : ℚ → ℤ → ℤ → List ℚ → Except String (SpecData α))
        (md : EEGMetadata) (dur : ℚ),
      (get_eeg_spectrograms compute (Except.ok (([0, 7] : List ℚ), ([[1, 2]] : List (List ℚ)))) md 0 dur).spectrograms = [] ∧
      (get_eeg_spectrograms compute (Except.ok (([0, 7] : List ℚ), ([[1, 2]] : List (List ℚ)))) md 0 dur).error = none) :=
  C8_validity_filter [0, 5] ⟨[0, 7], [[1, 2]]⟩ 0 (by decide)

/-- Claim C10, confirmed: the live window result is capped at the first 8
channel rows, keyed `Channel_1` ... `Channel_{min(C,8)}`, while the
spectrogram path is not capped: with distinct channel names (the
`spectrograms` dict is name-keyed, so a duplicate name would overwrite its
earlier entry) and every listed channel in bounds, long enough and
computing successfully, `spectrograms` has one entry per channel name,
however many there are. -/
theorem C10_live_caps_at_8_channels (rec : Recording) (off : ℚ)
    (hlen : 1 < (timeValidOf rec.time).length)
    (hmask : (eegWmaskOf rec.time off liveWindowDuration).any id = true) :
    (get_eeg_live_data rec off).channels.length = min rec.data.length 8 ∧
    (get_eeg_live_data rec off).channels.length ≤ 8 ∧
    (get_eeg_live_data rec off).channels.map Prod.fst =
      (List.range (min rec.data.length 8)).map
        (fun i => "Channel_" ++ toString (i + 1)) ∧
    (∀ (α : Type) (compute : ℚ → ℤ → ℤ → List ℚ → Except String (SpecData α))
        (time : List ℚ) (data : List (List ℚ)) (md : EEGMetadata) (off2 dur : ℚ),
      ¬ (timeValidOf time).length < 2 →
      (eegWmaskOf time off2 dur).any id = true →
      (effChannelNames md data).Nodup →
      (∀ p ∈ (effChannelNames md data).enum, p.1 < data.length ∧
        npersegOf md.sampling_freq ≤
          ((windowedChannel data (validMaskOf time) (eegWmaskOf time off2 dur) p.1).length : ℤ) ∧
        ∃ s, compute md.sampling_freq (npersegOf md.sampling_freq)
          (noverlapOf md.sampling_freq)
          (windowedChannel data (validMaskOf time) (eegWmaskOf time off2 dur) p.1) =
            Except.ok s) →
      (get_eeg_spectrograms compute (Except.ok (time, data)) md off2 dur).spectrograms.length =
        (effChannelNames md data).length) := by
  have hchan : (get_eeg_live_data rec off).channels =
      (List.range (min rec.data.length 8)).map (fun i =>
        ("Channel_" ++ toString (i + 1),
          ({ time := (applyMask (eegWmaskOf rec.time off liveWindowDuration)
              (timeValidOf rec.time)).map
              (fun t => t - startTimeOf (timeValidOf rec.time) off),
             values := applyMask (eegWmaskOf rec.time off liveWindowDuration)
              (applyMask (validMaskOf rec.time) (rec.data.getD i [])) } :
            ChannelWindow))) := by
    show liveChannels rec off = _
    unfold timeValidOf at hlen
    unfold eegWmaskOf timeValidOf at hmask
    unfold eegWmaskOf timeValidOf
    simp only [liveChannels]
    rw [if_pos hlen, if_pos hmask]
  refine ⟨?_, ?_, ?_, ?_⟩
  · rw [hchan, List.length_map, List.length_range]
  · rw [hchan, List.length_map, List.length_range]
    exact min_le_right _ _
  · rw [hchan, List.map_map]
    rfl
  · intro α compute time data md off2 dur hlen2 hmask2 hnd hcond
    rw [get_eeg_spectrograms_ok compute time data md off2 dur hlen2 hmask2]
    have hnd' : (((effChannelNames md data).enum.map Prod.snd)).Nodup := by
      rw [List.enum_map_snd]
      exact hnd
    have hdisj : ∀ p ∈ (effChannelNames md data).enum,
        p.2 ∉ (specResInit α md data off2 dur).spectrograms.map Prod.fst := by
      intro p _ hmem
      simp [specResInit, baseSpecResult] at hmem
    rw [specChannelLoop_length _ _ _ _ _ _ _ hnd' hcond hdisj]
    simp [specResInit, baseSpecResult, List.enum_length]

/-- Witness for `C10_live_caps_at_8_channels` at a 9-channel recording:
only 8 channels appear in the live result. -/
theorem C10_witness :
    (get_eeg_live_data ⟨[1, 2],
        [[1, 1], [2, 2], [3, 3], [4, 4], [5, 5], [6, 6], [7, 7], [8, 8], [9, 9]]⟩
      0).channels.length = 8 ∧
    (get_eeg_live_data ⟨[1, 2],
        [[1, 1], [2, 2], [3, 3], [4, 4], [5, 5], [6, 6], [7, 7], [8, 8], [9, 9]]⟩
      0).channels.length ≤ 8 ∧
    (get_eeg_live_data ⟨[1, 2],
        [[1, 1], [2, 2], [3, 3], [4, 4], [5, 5], [6, 6], [7, 7], [8, 8], [9, 9]]⟩
      0).channels.map Prod.fst =
      (List.range 8).map (fun i => "Channel_" ++ toString (i + 1)) ∧
    (∀ (α : Type) (compute : ℚ → ℤ → ℤ → List ℚ → Except String (SpecData α))
        (time : List ℚ) (data : List (List ℚ)) (md : EEGMetadata) (off2 dur : ℚ),
      ¬ (timeValidOf time).length < 2 →
      (eegWmaskOf time off2 dur).any id = true →
      (effChannelNames md data).Nodup →
      (∀ p ∈ (effChannelNames md data).enum, p.1 < data.length ∧
        npersegOf md.sampling_freq ≤
          ((windowedChannel data (validMaskOf time) (eegWmaskOf time off2 dur) p.1).length : ℤ) ∧
        ∃ s, compute md.sampling_freq (npersegOf md.sampling_freq)
          (noverlapOf md.sampling_freq)
          (windowedChannel data (validMaskOf time) (eegWmaskOf time off2 dur) p.1) =
            Except.ok s) →
      (get_eeg_spectrograms compute (Except.ok (time, data)) md off2 dur).spectrograms.length =
        (effChannelNames md data).length) :=
  C10_live_caps_at_8_channels
    ⟨[1, 2], [[1, 1], [2, 2], [3, 3], [4, 4], [5, 5], [6, 6], [7, 7], [8, 8], [9, 9]]⟩
    0
    (by decide)
    (by norm_num [eegWmaskOf, timeValidOf, validMaskOf, applyMask,
      windowMaskOf, startTimeOf, endTimeOf, liveWindowDuration])

theorem logb_epsilon : Real.logb 10 (1e-10 : ℝ) = -10 := by
  have h10 : (1e-10 : ℝ) = 10 ^ (-10 : ℤ) := by norm_num
  rw [h10, Real.logb, Real.log_zpow]
  have hl : Real.log 10 ≠ 0 := ne_of_gt (Real.log_pos (by norm_num))
  field_simp

theorem psdBin_zero (w : ℕ → ℝ) (c fs : ℝ) (x : List ℝ)
    (nperseg noverlap k m : ℕ) (hx : ∀ v ∈ x, v = 0) :
    psdBin w c fs x nperseg noverlap k m = 0 := by
  have hseg : ∀ v ∈ stftSegment x nperseg noverlap m, v = 0 := fun v hv =>
    hx v (List.drop_subset _ _ (List.take_subset _ _ hv))
  have hsum : (stftSegment x nperseg noverlap m).sum = 0 := List.sum_eq_zero hseg
  have hdet : ∀ v ∈ detrendConstant (stftSegment x nperseg noverlap m), v = 0 := by
    intro v hv
    rcases List.mem_map.mp hv with ⟨u, hu, rfl⟩
    rw [hseg u hu, hsum]
    simp
  have hgetD : ∀ n, (detrendConstant (stftSegment x nperseg noverlap m)).getD n 0 = 0 := by
    intro n
    rcases hn : (detrendConstant (stftSegment x nperseg noverlap m))[n]? with _ | v
    · rw [List.getD_eq_getElem?_getD, hn]
      rfl
    · rw [List.getD_eq_getElem?_getD, hn]
      exact hdet v (List.getElem?_mem hn)
  have hre : dftRe w (detrendConstant (stftSegment x nperseg noverlap m)) k = 0 := by
    unfold dftRe
    apply Finset.sum_eq_zero
    intro n _
    rw [hgetD n]
    ring
  have him : dftIm w (detrendConstant (stftSegment x nperseg noverlap m)) k = 0 := by
    unfold dftIm
    apply Finset.sum_eq_zero
    intro n _
    rw [hgetD n]
    ring
  unfold psdBin
  dsimp only
  rw [hre, him]
  simp

/-- Claim C9, confirmed: the dB conversion is
`power_db = 10 * log10(power_spectral_density + 1e-10)` with the epsilon
`1e-10` exactly; for an all-zero windowed channel every PSD bin is zero, so
every bin of the returned power matrix equals `10 * log10(1e-10)`, which is
the finite real number `-100` — in particular no bin is minus infinity.
The result holds for every window function and one-sided scaling, which
live inside scipy. -/
theorem C9_zero_channel_power (w : ℕ → ℝ) (c fs : ℝ) (x : List ℝ)
    (nperseg noverlap : ℕ) (hx : ∀ v ∈ x, v = 0) :
    compute_spectrogram w c x fs nperseg noverlap =
      List.replicate (nperseg / 2 + 1)
        (List.replicate (stftSegments x.length nperseg noverlap)
          (10 * Real.logb 10 (1e-10 : ℝ))) ∧
    (10 : ℝ) * Real.logb 10 (1e-10 : ℝ) = -100 := by
  constructor
  · rw [compute_spectrogram]
    refine List.eq_replicate_iff.mpr ⟨by simp, ?_⟩
    intro row hrow
    rcases List.mem_map.mp hrow with ⟨k, hk, rfl⟩
    refine List.eq_replicate_iff.mpr ⟨by simp, ?_⟩
    intro p hp
    rcases List.mem_map.mp hp with ⟨m, hm, rfl⟩
    rw [powerDb, psdBin_zero w c fs x nperseg noverlap k m hx, zero_add]
  · rw [logb_epsilon]
    norm_num

/-- Witness for `C9_zero_channel_power` at the all-zero 3-sample channel
with `nperseg = 2`, `noverlap = 1`. -/
theorem C9_witness :
    compute_spectrogram (fun _ => (1 : ℝ)) 1 [0, 0, 0] 1 2 1 =
      List.replicate 2 (List.replicate 2 (10 * Real.logb 10 (1e-10 : ℝ))) ∧
    (10 : ℝ) * Real.logb 10 (1e-10 : ℝ) = -100 :=
  C9_zero_channel_power (fun _ => 1) 1 1 [0, 0, 0] 2 1
    (by intro v hv; simpa using hv)

end PyMIND
